import Mathlib

/-!
Shallow embedding of `src/i18n.ts` from labd/js-toolkit.

The file embeds the three exported functions of the repository:
`getLocalizedValue`, `parseLocale` and `formatFullname`.  JavaScript string
maps become insertion-ordered association lists, `T | undefined` becomes
`Option T`, and a call that may throw returns `Except String`.

`parseLocale` delegates to the platform `Intl.Locale` constructor
(ECMA-402).  That constructor is modelled here on the core
`language[-script][-region][-variant]*` grammar of Unicode BCP-47 locale
identifiers: structural validation is case-insensitive, the constructor
throws a RangeError on a structurally invalid tag, and the parsed fields are
canonically cased (language lower case, script title case, region upper
case).  Extension and private-use sequences and deprecated-subtag alias
replacement are not modelled; no claim exercises them.  Character case
operations are modelled on the ASCII range, which is all that locale
identifiers use.
-/

namespace JsToolkit

/-- ASCII upper-case letter test, on the code point. -/
def isUpperA (c : Char) : Bool := 65 ≤ c.toNat && c.toNat ≤ 90

/-- ASCII lower-case letter test, on the code point. -/
def isLowerA (c : Char) : Bool := 97 ≤ c.toNat && c.toNat ≤ 122

/-- ASCII letter test. -/
def isAsciiAlpha (c : Char) : Bool := isUpperA c || isLowerA c

/-- ASCII digit test. -/
def isAsciiDigit (c : Char) : Bool := 48 ≤ c.toNat && c.toNat ≤ 57

/-- ASCII letter-or-digit test. -/
def isAsciiAlphanum (c : Char) : Bool := isAsciiAlpha c || isAsciiDigit c

/-- Lower-cases one character: models `String.prototype.toLowerCase`
character-wise on the ASCII range. -/
def lowerChar (c : Char) : Char :=
  if isUpperA c then Char.ofNat (c.toNat + 32) else c

/-- Upper-cases one character. -/
def upperChar (c : Char) : Char :=
  if isLowerA c then Char.ofNat (c.toNat - 32) else c

/-- Models `String.prototype.toLowerCase` (ASCII range). -/
def lowerStr (s : String) : String := ⟨s.data.map lowerChar⟩

/-- Models `String.prototype.toUpperCase` (ASCII range). -/
def upperStr (s : String) : String := ⟨s.data.map upperChar⟩

/-- Splits a character list at every hyphen, the separator of BCP-47
subtags.  Adjacent hyphens produce empty segments, which no segment class
accepts. -/
def splitSegs : List Char → List (List Char)
  | [] => [[]]
  | c :: rest =>
    if c = '-' then [] :: splitSegs rest
    else
      match splitSegs rest with
      | [] => [[c]]
      | s :: ss => (c :: s) :: ss

/-- A `unicode_language_subtag`: 2–3 or 5–8 ASCII letters. -/
def isLangSeg (s : List Char) : Bool :=
  s.all isAsciiAlpha &&
    ((2 ≤ s.length && s.length ≤ 3) || (5 ≤ s.length && s.length ≤ 8))

/-- A `unicode_script_subtag`: exactly 4 ASCII letters. -/
def isScriptSeg (s : List Char) : Bool :=
  s.length == 4 && s.all isAsciiAlpha

/-- A `unicode_region_subtag`: 2 ASCII letters or 3 ASCII digits. -/
def isRegionSeg (s : List Char) : Bool :=
  (s.length == 2 && s.all isAsciiAlpha) || (s.length == 3 && s.all isAsciiDigit)

/-- A `unicode_variant_subtag`: 5–8 alphanumerics, or a digit followed by 3
alphanumerics. -/
def isVariantSeg (s : List Char) : Bool :=
  (5 ≤ s.length && s.length ≤ 8 && s.all isAsciiAlphanum) ||
  (s.length == 4 && (s.head?.elim false isAsciiDigit) && s.all isAsciiAlphanum)

/-- If the first segment satisfies `p`, consume it. -/
def takeIf (p : List Char → Bool) : List (List Char) → Option (List Char) × List (List Char)
  | [] => (none, [])
  | s :: ss => if p s then (some s, ss) else (none, s :: ss)

/-- Title-cases a segment whose remaining characters are already lower case. -/
def titleChars : List Char → List Char
  | [] => []
  | c :: cs => upperChar c :: cs

/-- The fields of an ECMA-402 `Intl.Locale` object that `parseLocale`
reads: `language`, `script` and `region`, absent fields as `none`. -/
structure IntlLocaleData where
  language : String
  script : Option String
  region : Option String
  deriving Repr, DecidableEq

/-- Walks the already lower-cased segments of a candidate tag:
`language (script)? (region)? (variant)*`, canonically casing each parsed
field.  Any leftover segment makes the whole tag invalid, as in ECMA-402
structural validation. -/
def intlCore (segs : List (List Char)) : Except String IntlLocaleData :=
  match segs with
  | [] => .error "InvalidLocale"
  | lang :: rest =>
    if isLangSeg lang then
      let sc := takeIf isScriptSeg rest
      let rg := takeIf isRegionSeg sc.2
      if rg.2.all isVariantSeg then
        .ok { language := ⟨lang⟩,
              script := sc.1.map (fun s => ⟨titleChars s⟩),
              region := rg.1.map (fun s => ⟨s.map upperChar⟩) }
      else .error "InvalidLocale"
    else .error "InvalidLocale"

/-- Models `new Intl.Locale(tag)`: case-insensitive structural validation of
the core locale grammar, with the parsed fields canonically cased.  A tag
the grammar rejects raises a range error, modelled as `Except.error`. -/
def intlLocale (tag : String) : Except String IntlLocaleData :=
  intlCore (splitSegs (lowerStr tag).data)

/-- The result shape of `parseLocale` in `src/i18n.ts`. -/
structure ParsedLocale where
  languageTag : String
  subTag : Option String
  deriving Repr, DecidableEq

/-- Embeds `parseLocale` of `src/i18n.ts`: builds an `Intl.Locale` and
returns its language, with `loc.region || loc.script || undefined` as the
subtag: the region when present, else the script, else absent. -/
def parseLocale (locale : String) : Except String ParsedLocale :=
  (intlLocale locale).map fun loc =>
    { languageTag := loc.language,
      subTag := match loc.region with
        | some r => some r
        | none => loc.script }

/-- The value mapping's own-property lookup `values[k]`, and with `isSome`
the `k in values` test.  Keys of a JavaScript object are distinct, so the
first binding is the binding. -/
def lookupExact {T : Type} (values : List (String × T)) (k : String) : Option T :=
  (values.find? (fun kv => kv.1 == k)).map (fun kv => kv.2)

/-- The fallback chain `getLocalizedValue` builds after parsing:
`[locale, languageTag, ...fallbackLocales]` when a subtag is present,
`[locale, ...fallbackLocales]` otherwise. -/
def candidateChain (locale : String) (p : ParsedLocale) (fallbackLocales : List String) :
    List String :=
  match p.subTag with
  | some _ => locale :: p.languageTag :: fallbackLocales
  | none => locale :: fallbackLocales

/-- The nested loops of `getLocalizedValue`: for each candidate in order,
scan the keys in insertion order and return the value of the first key
whose lower-cased form equals the candidate's lower-cased form. -/
def scanValues {T : Type} (values : List (String × T)) (chain : List String) : Option T :=
  chain.findSome? fun alt =>
    (values.find? (fun kv => lowerStr kv.1 == lowerStr alt)).map (fun kv => kv.2)

/-- Embeds `getLocalizedValue` of `src/i18n.ts`: fast case-sensitive lookup,
then parse, then the case-insensitive scan over the fallback chain.  The
call is pure; `Except.error` models the uncaught `Intl.Locale` throw. -/
def getLocalizedValue {T : Type} (values : List (String × T)) (locale : String)
    (fallbackLocales : List String := []) : Except String (Option T) :=
  match lookupExact values locale with
  | some v => .ok (some v)
  | none =>
    match parseLocale locale with
    | .error e => .error e
    | .ok p => .ok (scanValues values (candidateChain locale p fallbackLocales))

/-- The fixed family-name-first locale list of `src/i18n.ts`. -/
def familyNameFirstLocales : List String :=
  ["ja-JP", "zh-CN", "zh-TW", "ko-KR", "vi-VN", "hu-HU", "mn-MN"]

/-- Embeds `formatFullname` of `src/i18n.ts`. -/
def formatFullname (givenName familyName locale : String) : String :=
  if familyNameFirstLocales.contains locale then
    familyName ++ " " ++ givenName
  else
    givenName ++ " " ++ familyName

/-! Helper lemmas about the character layer. -/

theorem toNat_ofNat_small {n : Nat} (h : n < 55296) : (Char.ofNat n).toNat = n := by
  rw [Char.ofNat, dif_pos (Or.inl h)]
  simp [Char.ofNatAux, Char.toNat]
  rfl

theorem lowerChar_lowerChar (c : Char) : lowerChar (lowerChar c) = lowerChar c := by
  by_cases h : isUpperA c = true
  · have hb : 65 ≤ c.toNat ∧ c.toNat ≤ 90 := by
      simpa [isUpperA, Bool.and_eq_true, decide_eq_true_eq] using h
    have hn : c.toNat + 32 < 55296 := by omega
    have h2 : isUpperA (Char.ofNat (c.toNat + 32)) = false := by
      simp [isUpperA, toNat_ofNat_small hn]
      omega
    have hlc : lowerChar c = Char.ofNat (c.toNat + 32) := by rw [lowerChar, if_pos h]
    rw [hlc, lowerChar, h2]
    simp
  · have hlc : lowerChar c = c := by rw [lowerChar, if_neg h]
    rw [hlc]
    exact hlc

theorem upperChar_upperChar (c : Char) : upperChar (upperChar c) = upperChar c := by
  by_cases h : isLowerA c = true
  · have hb : 97 ≤ c.toNat ∧ c.toNat ≤ 122 := by
      simpa [isLowerA, Bool.and_eq_true, decide_eq_true_eq] using h
    have hn : c.toNat - 32 < 55296 := by omega
    have h2 : isLowerA (Char.ofNat (c.toNat - 32)) = false := by
      simp [isLowerA, toNat_ofNat_small hn]
      omega
    have huc : upperChar c = Char.ofNat (c.toNat - 32) := by rw [upperChar, if_pos h]
    rw [huc, upperChar, h2]
    simp
  · have huc : upperChar c = c := by rw [upperChar, if_neg h]
    rw [huc]
    exact huc

/-! Helper lemmas about segment splitting. -/

theorem mem_of_mem_splitSegs :
    ∀ {cs seg : List Char} {c : Char}, seg ∈ splitSegs cs → c ∈ seg → c ∈ cs := by
  intro cs
  induction cs with
  | nil =>
    intro seg c hseg hc
    simp [splitSegs] at hseg
    subst hseg
    simp at hc
  | cons a rest ih =>
    intro seg c hseg hc
    by_cases ha : a = '-'
    · rw [splitSegs, if_pos ha] at hseg
      rcases List.mem_cons.mp hseg with h | h
      · subst h; simp at hc
      · exact List.mem_cons_of_mem a (ih h hc)
    · rw [splitSegs, if_neg ha] at hseg
      rcases hrest : splitSegs rest with _ | ⟨s, ss⟩
      · rw [hrest] at hseg
        simp at hseg
        subst hseg
        simp at hc
        subst hc
        exact List.mem_cons_self c rest
      · rw [hrest] at hseg
        rcases List.mem_cons.mp hseg with h | h
        · subst h
          rcases List.mem_cons.mp hc with hca | hcs
          · subst hca; exact List.mem_cons_self c rest
          · have hs : s ∈ splitSegs rest := by
              rw [hrest]; exact List.mem_cons_self s ss
            exact List.mem_cons_of_mem a (ih hs hcs)
        · have hs : seg ∈ splitSegs rest := by
            rw [hrest]; exact List.mem_cons_of_mem s h
          exact List.mem_cons_of_mem a (ih hs hc)

theorem mem_lowerStr_fixed {s : String} {c : Char} (h : c ∈ (lowerStr s).data) :
    lowerChar c = c := by
  rcases List.mem_map.mp h with ⟨c0, _, rfl⟩
  exact lowerChar_lowerChar c0

theorem intlCore_ok_inv {segs : List (List Char)} {d : IntlLocaleData}
    (h : intlCore segs = .ok d) :
    ∃ lang rest, segs = lang :: rest ∧ isLangSeg lang = true ∧ d.language = ⟨lang⟩ ∧
      ∀ r, d.region = some r → ∃ seg : List Char, r = ⟨seg.map upperChar⟩ := by
  cases segs with
  | nil => simp [intlCore] at h
  | cons lang rest =>
    refine ⟨lang, rest, rfl, ?_, ?_, ?_⟩ <;> simp only [intlCore] at h <;> split at h
    · assumption
    · cases h
    · split at h
      · cases h; rfl
      · cases h
    · cases h
    · split at h
      · cases h
        intro r hr
        rcases Option.map_eq_some'.mp hr with ⟨seg, _, hseg⟩
        exact ⟨seg, hseg.symm⟩
      · cases h
    · cases h

example : parseLocale "en-US" = .ok ⟨"en", some "US"⟩ := rfl
example : parseLocale "en" = .ok ⟨"en", none⟩ := rfl
example : parseLocale "zh-Hant-HK" = .ok ⟨"zh", some "HK"⟩ := rfl
example : parseLocale "EN-us" = .ok ⟨"en", some "US"⟩ := rfl
example : parseLocale "x" = .error "InvalidLocale" := rfl
example : parseLocale "" = .error "InvalidLocale" := rfl
example : parseLocale "en-posix" = .ok ⟨"en", none⟩ := rfl
example : getLocalizedValue [("en", "Hello"), ("en-US", "Howdy")] "en-GB" []
    = .ok (some "Hello") := rfl
example : getLocalizedValue [("EN", "Hello")] "en" [] = .ok (some "Hello") := rfl
example : getLocalizedValue ([] : List (String × Nat)) "en" [] = .ok none := rfl
example : getLocalizedValue [("fr", "Bonjour")] "es" ["en", "fr"]
    = .ok (some "Bonjour") := rfl
example : formatFullname "John" "Doe" "ja-JP" = "Doe John" := rfl
example : formatFullname "John" "Doe" "ja" = "John Doe" := rfl

/-- C2: for every value mapping containing the key `k` case-sensitively and
every fallback list, `getLocalizedValue` returns the value bound to `k`
immediately, without invoking the tag parser and regardless of the casing
of any other keys. -/
theorem getLocalizedValue_exact_fast_path {T : Type} (values : List (String × T))
    (k : String) (fb : List String) (v : T) (h : lookupExact values k = some v) :
    getLocalizedValue values k fb = .ok (some v) := by
  rw [getLocalizedValue, h]

/-- Witness for C2 at a concrete input.  The key is not even a parseable
locale identifier, so the result also shows that the fast path never
reaches the tag parser. -/
theorem getLocalizedValue_exact_fast_path_witness :
    getLocalizedValue [("x!", "value"), ("X!", "other")] "x!" ["en"] = .ok (some "value") :=
  getLocalizedValue_exact_fast_path [("x!", "value"), ("X!", "other")] "x!" ["en"] "value" rfl

/-- C3 (code bug): evaluating `parseLocale` at the failing input
`"zh-Hant-HK"`.  The claim — and the source's own doc comment example —
say the subtag is the second segment `"Hant"` with `"HK"` ignored, but
`loc.region || loc.script` prefers the region, so the code returns `"HK"`. -/
theorem parseLocale_zh_Hant_HK :
    parseLocale "zh-Hant-HK" = .ok ⟨"zh", some "HK"⟩ ∧ some "HK" ≠ some "Hant" := by
  exact ⟨rfl, by decide⟩

/-- C4: `getLocalizedValue` propagates an error if and only if the locale is
not a case-sensitive key of the mapping and the tag parser rejects the
locale string; the error is exactly the parser's, and an exact key makes an
error impossible even for an unparseable locale. -/
theorem getLocalizedValue_error_iff {T : Type} (values : List (String × T))
    (locale : String) (fb : List String) (e : String) :
    getLocalizedValue values locale fb = .error e ↔
      lookupExact values locale = none ∧ parseLocale locale = .error e := by
  rw [getLocalizedValue]
  cases h : lookupExact values locale with
  | some v => simp
  | none =>
    cases hp : parseLocale locale with
    | error e2 => simp
    | ok p => simp

/-- C5 (counterexample): the parser's failure branch is reachable on a
malformed token: `"x"` is not interpretable as a locale identifier and
parsing it fails rather than degrading to an absent subtag. -/
theorem parseLocale_failure_reachable : parseLocale "x" = .error "InvalidLocale" := rfl

/-- C5 (amended): malformed tokens do not all degrade gracefully: a token
the tag parser cannot interpret at all makes it fail, so the failure branch
is reachable.  What survives of the claim is that no validation happens
beyond what the parser extracts: whenever parsing succeeds, the subtag is
absent exactly when the parsed locale object carries neither a region nor a
script.  The statement is parametric in the parsed fields, so it holds
whatever canonicalization the platform constructor applies. -/
theorem parseLocale_subTag_absent_iff (s : String) (d : IntlLocaleData) (p : ParsedLocale)
    (hd : intlLocale s = .ok d) (hp : parseLocale s = .ok p) :
    p.subTag = none ↔ d.region = none ∧ d.script = none := by
  rw [parseLocale, hd] at hp
  have hp2 : p.subTag = match d.region with
      | some r => some r
      | none => d.script := by
    have h2 := congrArg (fun x : Except String ParsedLocale =>
      match x with
      | .ok q => q.subTag
      | .error _ => none) hp
    simpa [Except.map] using h2.symm
  rw [hp2]
  cases hr : d.region with
  | some r => simp
  | none => cases hs : d.script <;> simp

/-- Witness for C5's amended theorem at the concrete input `"en"`, whose
parse succeeds with no region, no script and an absent subtag. -/
theorem parseLocale_subTag_absent_iff_witness :
    (none : Option String) = none ↔
      ((none : Option String) = none ∧ (none : Option String) = none) :=
  parseLocale_subTag_absent_iff "en" ⟨"en", none, none⟩ ⟨"en", none⟩ rfl rfl

/-- C8: `parseLocale "en-US"` yields language tag `"en"` with subtag `"US"`,
and `parseLocale "en"` yields language tag `"en"` with the subtag absent. -/
theorem parseLocale_examples :
    parseLocale "en-US" = .ok ⟨"en", some "US"⟩ ∧ parseLocale "en" = .ok ⟨"en", none⟩ :=
  ⟨rfl, rfl⟩

/-- C1: when the locale is not an exact case-sensitive key, the lookup is a
first-match search over the candidate chain, `[locale, languageTag] ++
fallbackLocales` when parsing yields a subtag and `[locale] ++
fallbackLocales` when it does not: candidates strictly in order, and for
each candidate the keys in insertion order, returning the value of the
first key whose lower-cased form equals the candidate's lower-cased form. -/
theorem getLocalizedValue_candidate_chain {T : Type} (values : List (String × T))
    (locale : String) (fb : List String) (p : ParsedLocale)
    (hk : lookupExact values locale = none) (hp : parseLocale locale = .ok p) :
    getLocalizedValue values locale fb =
      .ok (((if p.subTag.isSome then [locale, p.languageTag] else [locale]) ++ fb).findSome?
        fun alt => (values.find? fun kv => lowerStr kv.1 == lowerStr alt).map
          fun kv => kv.2) := by
  simp only [getLocalizedValue, hk, hp]
  cases hs : p.subTag <;> simp [scanValues, candidateChain, hs]

/-- Witness for C1 at a concrete input: `"en-GB"` is not an exact key, the
parse yields a subtag, and the chain's second candidate `"en"` matches the
key `"EN"` case-insensitively. -/
theorem getLocalizedValue_candidate_chain_witness :
    getLocalizedValue [("EN", "Hello")] "en-GB" [] = .ok (some "Hello") :=
  (getLocalizedValue_candidate_chain [("EN", "Hello")] "en-GB" []
    ⟨"en", some "GB"⟩ rfl rfl).trans rfl

/-- C6: whenever parsing succeeds and no candidate of the chain matches any
key of the mapping case-insensitively, `getLocalizedValue` returns the
absent value rather than an error; an empty mapping is the special case of
an empty key list. -/
theorem getLocalizedValue_no_match_absent {T : Type} (values : List (String × T))
    (locale : String) (fb : List String) (p : ParsedLocale)
    (hp : parseLocale locale = .ok p)
    (hno : ∀ alt ∈ candidateChain locale p fb, ∀ kv ∈ values,
      lowerStr kv.1 ≠ lowerStr alt) :
    getLocalizedValue values locale fb = .ok none := by
  have hk : lookupExact values locale = none := by
    cases hf : values.find? (fun kv => kv.1 == locale) with
    | none => simp [lookupExact, hf]
    | some kv =>
      exfalso
      have hmem := List.mem_of_find?_eq_some hf
      have heq : kv.1 = locale := by simpa using List.find?_some hf
      have hloc : locale ∈ candidateChain locale p fb := by
        rw [candidateChain]
        cases p.subTag <;> exact List.mem_cons_self _ _
      exact hno locale hloc kv hmem (by rw [heq])
  simp only [getLocalizedValue, hk, hp]
  suffices hs : scanValues values (candidateChain locale p fb) = none by rw [hs]
  rw [scanValues]
  rw [List.findSome?_eq_none_iff]
  intro alt halt
  rw [Option.map_eq_none']
  rw [List.find?_eq_none]
  intro kv hkv
  simpa using hno alt halt kv hkv

/-- Witness for C6 at a concrete input: the only key `"fr"` matches no
candidate for locale `"en"`, so the result is the absent value. -/
theorem getLocalizedValue_no_match_absent_witness :
    getLocalizedValue [("fr", "Bonjour")] "en" [] = .ok none :=
  getLocalizedValue_no_match_absent [("fr", "Bonjour")] "en" [] ⟨"en", none⟩ rfl
    (by decide)

theorem contains_familyNameFirst_iff (l : String) :
    familyNameFirstLocales.contains l = true ↔
      (l = "ja-JP" ∨ l = "zh-CN" ∨ l = "zh-TW" ∨ l = "ko-KR" ∨ l = "vi-VN" ∨
        l = "hu-HU" ∨ l = "mn-MN") := by
  rw [List.contains_iff_exists_mem_beq]
  constructor
  · rintro ⟨b, hb, hbeq⟩
    have hlb : l = b := eq_of_beq hbeq
    subst hlb
    simpa [familyNameFirstLocales] using hb
  · intro h
    rcases h with rfl | rfl | rfl | rfl | rfl | rfl | rfl <;> decide

/-- C7: `formatFullname` returns family name first exactly when the locale
is literally one of the seven fixed identifiers, with no fallback and no
parsing, and otherwise given name first; in particular the bare language
`"ja"` is not in the set, so `formatFullname "John" "Doe" "ja"` keeps the
default order, and the function is total. -/
theorem formatFullname_spec :
    (∀ g f l : String,
      formatFullname g f l =
        if l = "ja-JP" ∨ l = "zh-CN" ∨ l = "zh-TW" ∨ l = "ko-KR" ∨ l = "vi-VN" ∨
            l = "hu-HU" ∨ l = "mn-MN"
        then f ++ " " ++ g else g ++ " " ++ f) ∧
    formatFullname "John" "Doe" "ja" = "John Doe" := by
  refine ⟨fun g f l => ?_, rfl⟩
  by_cases h : l = "ja-JP" ∨ l = "zh-CN" ∨ l = "zh-TW" ∨ l = "ko-KR" ∨ l = "vi-VN" ∨
      l = "hu-HU" ∨ l = "mn-MN"
  · rw [if_pos h, formatFullname, if_pos ((contains_familyNameFirst_iff l).mpr h)]
  · rw [if_neg h, formatFullname,
      if_neg (fun hc => h ((contains_familyNameFirst_iff l).mp hc))]

/-- C9: parsing canonicalizes letter case: the result is invariant under
case changes of the input, the language tag of a successful parse is fixed
by lower-casing, a region field of the modelled locale object is fixed by
upper-casing, and `"EN-us"` parses to language `"en"` with subtag `"US"`. -/
theorem parseLocale_case_canonical :
    (∀ s t : String, lowerStr s = lowerStr t → parseLocale s = parseLocale t) ∧
    (∀ (s : String) (p : ParsedLocale), parseLocale s = .ok p →
      lowerStr p.languageTag = p.languageTag) ∧
    (∀ (s : String) (d : IntlLocaleData), intlLocale s = .ok d →
      ∀ r : String, d.region = some r → upperStr r = r) ∧
    parseLocale "EN-us" = .ok ⟨"en", some "US"⟩ := by
  refine ⟨?_, ?_, ?_, rfl⟩
  · intro s t h
    rw [parseLocale, parseLocale, intlLocale, intlLocale, h]
  · intro s p hp
    rw [parseLocale] at hp
    cases hd : intlLocale s with
    | error e => rw [hd] at hp; simp [Except.map] at hp
    | ok d =>
      rw [hd] at hp
      have hlt : d.language = p.languageTag := by
        have h2 := congrArg (fun x : Except String ParsedLocale =>
          match x with
          | .ok q => q.languageTag
          | .error _ => "") hp
        simpa [Except.map] using h2
      rw [intlLocale] at hd
      rcases intlCore_ok_inv hd with ⟨lang, rest, hsegs, _, hdlang, _⟩
      rw [← hlt, hdlang]
      have hfix : ∀ c ∈ lang, lowerChar c = c := by
        intro c hc
        have hl : lang ∈ splitSegs (lowerStr s).data := by
          rw [hsegs]
          exact List.mem_cons_self _ _
        exact mem_lowerStr_fixed (mem_of_mem_splitSegs hl hc)
      show String.mk (lang.map lowerChar) = ⟨lang⟩
      exact congrArg String.mk ((List.map_congr_left hfix).trans (List.map_id lang))
  · intro s d hd r hr
    rw [intlLocale] at hd
    rcases intlCore_ok_inv hd with ⟨lang, rest, hsegs, _, _, hreg⟩
    rcases hreg r hr with ⟨seg, rfl⟩
    show String.mk ((seg.map upperChar).map upperChar) = ⟨seg.map upperChar⟩
    refine congrArg String.mk ?_
    rw [List.map_map]
    exact List.map_congr_left fun c _ => upperChar_upperChar c

/-- C10: `getLocalizedValue` never fabricates a value: a present result is
the value of some binding of the mapping.  The call itself is pure in this
embedding, so the mapping is unchanged by construction. -/
theorem getLocalizedValue_no_fabrication {T : Type} (values : List (String × T))
    (locale : String) (fb : List String) (v : T)
    (h : getLocalizedValue values locale fb = .ok (some v)) :
    ∃ kv ∈ values, kv.2 = v := by
  rw [getLocalizedValue] at h
  cases hl : lookupExact values locale with
  | some w =>
    rw [hl] at h
    have hwv : w = v := by simpa using h
    rw [lookupExact] at hl
    cases hf : values.find? (fun kv => kv.1 == locale) with
    | none => rw [hf] at hl; cases hl
    | some kv =>
      rw [hf] at hl
      have hkw : kv.2 = w := by simpa using hl
      exact ⟨kv, List.mem_of_find?_eq_some hf, by rw [hkw, hwv]⟩
  | none =>
    rw [hl] at h
    cases hp : parseLocale locale with
    | error e => rw [hp] at h; cases h
    | ok p =>
      rw [hp] at h
      have hscan : scanValues values (candidateChain locale p fb) = some v := by
        simpa using h
      rw [scanValues] at hscan
      rcases List.exists_of_findSome?_eq_some hscan with ⟨alt, halt, hfind⟩
      cases hf : values.find? (fun kv => lowerStr kv.1 == lowerStr alt) with
      | none => rw [hf] at hfind; cases hfind
      | some kv =>
        rw [hf] at hfind
        exact ⟨kv, List.mem_of_find?_eq_some hf, by simpa using hfind⟩

/-- Witness for C10 at a concrete input. -/
theorem getLocalizedValue_no_fabrication_witness :
    ∃ kv ∈ [("en", "Hello")], kv.2 = "Hello" :=
  getLocalizedValue_no_fabrication [("en", "Hello")] "en" [] "Hello" rfl

end JsToolkit
